import Mathlib

/-!
# Verification of `pyscgm` (`src/pyscgm/extmath.py`)

The repository implements a randomized range finder (`approx_range_finder`)
and a randomized truncated SVD (`randomized_svd`) on top of numpy/scipy.
The dense linear-algebra kernels (QR, LU, SVD, matrix multiply) and the
random generator are external collaborators, so we verify the repository's
own logic at two levels:

* a *symbolic* embedding, where a matrix value is the expression tree of
  kernel calls that produced it (`MExpr`); this captures exactly which
  operations the code performs, in which order, with which arguments, and
  lets us compute result shapes from the documented kernel shape rules;
* a *semantic* embedding over `Matrix (Fin m) (Fin n) R` for a commutative
  star ring `R`, parameterized by a bundle of kernel functions (`Kernels`);
  theorems assume only the contracts the kernels are documented to satisfy
  (QR returns a matrix with orthonormal columns, the thin SVD returns
  unitary factors with descending non-negative values reconstructing its
  argument).

In addition, a store-passing embedding (`Store`) tracks every array
allocation the code performs, to express that caller-supplied matrices are
never written in place.
-/

namespace Pyscgm

/-- Symbolic matrix values: the tree of numpy/scipy operations performed by
`extmath.py`.  `input` is the caller-supplied matrix; `randn r c` is
`rgen.randn(r, c)`; `qrQ X` is the orthonormal factor
`linalg.qr(X, mode='economic')[0]`; `luL X` is the permuted lower factor
`linalg.lu(X, permute_l=True)[0]`; `svdU X` / `svdVh X` are the first and
third results of `linalg.svd(X, full_matrices=False)`; `adjH` is `.H`,
`transp` is `.T`, `conjE` is `.conj()`; `rowsTake k X` is `X[:k, :]` and
`colsTake k X` is `X[:, :k]`. -/
inductive MExpr : Type where
  | input : MExpr
  | randn (rows cols : Nat) : MExpr
  | mul (X Y : MExpr) : MExpr
  | adjH (X : MExpr) : MExpr
  | transp (X : MExpr) : MExpr
  | conjE (X : MExpr) : MExpr
  | qrQ (X : MExpr) : MExpr
  | luL (X : MExpr) : MExpr
  | svdU (X : MExpr) : MExpr
  | svdVh (X : MExpr) : MExpr
  | rowsTake (k : Nat) (X : MExpr) : MExpr
  | colsTake (k : Nat) (X : MExpr) : MExpr
deriving DecidableEq, Repr

/-- Symbolic 1-D array values: `svdS X` is the vector of singular values
`linalg.svd(X, full_matrices=False)[1]`, `take k v` is `v[:k]`. -/
inductive VExpr : Type where
  | svdS (X : MExpr) : VExpr
  | take (k : Nat) (v : VExpr) : VExpr
deriving DecidableEq, Repr

/-- `extmath.py` lines 59-63: the `'auto'` mode of `piter_normalizer`
resolves to `'none'` when `n_iter <= 2` and to `'LU'` otherwise; any other
value is passed through unchanged. -/
def resolveNormalizer (pn : String) (n_iter : Nat) : String :=
  if pn = "auto" then (if n_iter ≤ 2 then "none" else "LU") else pn

/-- One round of the power-iteration loop, `extmath.py` lines 67-76.  The
branches compare the (already resolved) normalizer against the literals
`'none'`, `'LU'`, `'QR'`; a string matching no branch leaves `Q`
untouched, exactly as Python's `if/elif` chain does. -/
def rfStep (A : MExpr) (pn : String) (Q : MExpr) : MExpr :=
  if pn = "none" then .mul (.adjH A) (.mul A Q)
  else if pn = "LU" then .luL (.mul (.adjH A) (.luL (.mul A Q)))
  else if pn = "QR" then .qrQ (.mul (.adjH A) (.qrQ (.mul A Q)))
  else Q

/-- `for i in range(n_iter): ...` applied to the loop body `rfStep`. -/
def rfLoop (A : MExpr) (pn : String) (Q : MExpr) : Nat → MExpr
  | 0 => Q
  | j + 1 => rfStep A pn (rfLoop A pn Q j)

/-- Symbolic embedding of `approx_range_finder(A, size, n_iter,
piter_normalizer, rgen)` (`extmath.py` lines 5-81).  `A` is the symbolic
operand matrix and `aCols` its column count `A.shape[1]` (needed for the
`rgen.randn(A.shape[1], size)` draw).  The function draws the random
start, resolves `'auto'`, runs the power-iteration loop, and always ends
with `Q, _ = linalg.qr(A * Q, mode='economic')`. -/
def approx_range_finder_sym (A : MExpr) (aCols size n_iter : Nat)
    (pn : String) : MExpr :=
  MExpr.qrQ (.mul A (rfLoop A (resolveNormalizer pn n_iter)
    (.randn aCols size) n_iter))

/-- The `n_iter` argument of `randomized_svd`: either the string `'auto'`
or an explicit non-negative iteration count. -/
inductive NIterArg : Type where
  | auto : NIterArg
  | num (j : Nat) : NIterArg
deriving DecidableEq, Repr

/-- The `transpose` argument of `randomized_svd`: `'auto'`, `True` or
`False`. -/
inductive TransposeArg : Type where
  | auto : TransposeArg
  | fixed (b : Bool) : TransposeArg
deriving DecidableEq, Repr

/-- `extmath.py` lines 153-156: `n_iter = 7 if n_components < .1 *
min(M.shape) else 4` when `n_iter == 'auto'`.  The Python float literal
`.1` is modelled as the exact rational `1/10`. -/
def resolve_n_iter (m n k : Nat) : NIterArg → Nat
  | .auto => if (k : ℚ) < (1 / 10 : ℚ) * ((min m n : Nat) : ℚ) then 7 else 4
  | .num j => j

/-- `extmath.py` lines 158-159: `transpose = M.shape[0] < M.shape[1]` when
`transpose == 'auto'`. -/
def resolve_transpose (m n : Nat) : TransposeArg → Bool
  | .auto => decide (m < n)
  | .fixed b => b

/-- A call event logged by the embedding: `randomized_svd` invoking
`approx_range_finder` with a given sketch size and iteration count. -/
inductive RfEvent : Type where
  | rangeFinderCall (size n_iter : Nat) : RfEvent
deriving DecidableEq, Repr

/-- `approx_range_finder_sym` together with the call event it generates. -/
def approx_range_finder_ev (A : MExpr) (aCols size n_iter : Nat)
    (pn : String) : MExpr × List RfEvent :=
  (approx_range_finder_sym A aCols size n_iter pn,
    [RfEvent.rangeFinderCall size n_iter])

/-- Symbolic embedding of `randomized_svd(M, n_components, n_oversamples,
n_iter, piter_normalizer, transpose, rgen)` (`extmath.py` lines 150-178),
also returning the list of range-finder call events.  `m`, `n` are
`M.shape`; `k` is `n_components`; `p` is `n_oversamples`.  Mirrors the
source: `sketch_size = n_components + n_oversamples`; resolve `n_iter`
and `transpose`; operate on `M.T` when transposing; `B = Q.H * M`;
`Uhat, s, V = linalg.svd(B, full_matrices=False)`; `U = np.dot(Q, Uhat)`;
return `(V[:k, :].T, s[:k], U[:, :k].conj())` when transposed and
`(U[:, :k], s[:k], V[:k, :].H)` otherwise. -/
def randomized_svd_ev (m n k p : Nat) (nIt : NIterArg) (pn : String)
    (tr : TransposeArg) : (MExpr × VExpr × MExpr) × List RfEvent :=
  let sketch := k + p
  let n_iter := resolve_n_iter m n k nIt
  let transpose := resolve_transpose m n tr
  let M : MExpr := if transpose then .transp .input else .input
  let mCols : Nat := if transpose then m else n
  let Qev := approx_range_finder_ev M mCols sketch n_iter pn
  let Q := Qev.1
  let B := MExpr.mul (.adjH Q) M
  let Uhat := MExpr.svdU B
  let s := VExpr.svdS B
  let V := MExpr.svdVh B
  let U := MExpr.mul Q Uhat
  if transpose then
    ((MExpr.transp (.rowsTake k V), VExpr.take k s,
      MExpr.conjE (.colsTake k U)), Qev.2)
  else
    ((MExpr.colsTake k U, VExpr.take k s,
      MExpr.adjH (.rowsTake k V)), Qev.2)

/-- The returned `(U, s, V)` triple of `randomized_svd`, symbolically. -/
def randomized_svd_sym (m n k p : Nat) (nIt : NIterArg) (pn : String)
    (tr : TransposeArg) : MExpr × VExpr × MExpr :=
  (randomized_svd_ev m n k p nIt pn tr).1

/-- Shape analysis of a symbolic matrix, given the shape `d` of the input
matrix.  Rules are the documented numpy/scipy ones: `randn r c` is `r×c`;
multiplication requires matching inner dimensions; `.H`/`.T` swap the
dimensions; economy QR of an `r×c` matrix returns `r×min r c`;
`lu(·, permute_l=True)[0]` of `r×c` is `r×min r c`; the thin-SVD factors
of `r×c` are `r×min r c` and `min r c×c`; Python slices clamp to the
array bound. -/
def eshape (d : Nat × Nat) : MExpr → Option (Nat × Nat)
  | .input => some d
  | .randn r c => some (r, c)
  | .mul X Y =>
      match eshape d X, eshape d Y with
      | some a, some b => if a.2 = b.1 then some (a.1, b.2) else none
      | _, _ => none
  | .adjH X => (eshape d X).map (fun rc => (rc.2, rc.1))
  | .transp X => (eshape d X).map (fun rc => (rc.2, rc.1))
  | .conjE X => eshape d X
  | .qrQ X => (eshape d X).map (fun rc => (rc.1, min rc.1 rc.2))
  | .luL X => (eshape d X).map (fun rc => (rc.1, min rc.1 rc.2))
  | .svdU X => (eshape d X).map (fun rc => (rc.1, min rc.1 rc.2))
  | .svdVh X => (eshape d X).map (fun rc => (min rc.1 rc.2, rc.2))
  | .rowsTake k X => (eshape d X).map (fun rc => (min k rc.1, rc.2))
  | .colsTake k X => (eshape d X).map (fun rc => (rc.1, min k rc.2))

/-- Length of a symbolic 1-D array (the singular-value vector). -/
def vlen (d : Nat × Nat) : VExpr → Option Nat
  | .svdS X => (eshape d X).map (fun rc => min rc.1 rc.2)
  | .take k v => (vlen d v).map (fun l => min k l)

/-- Number of LU-factorization nodes in a symbolic matrix. -/
def countLu : MExpr → Nat
  | .input => 0
  | .randn _ _ => 0
  | .mul X Y => countLu X + countLu Y
  | .adjH X => countLu X
  | .transp X => countLu X
  | .conjE X => countLu X
  | .qrQ X => countLu X
  | .luL X => countLu X + 1
  | .svdU X => countLu X
  | .svdVh X => countLu X
  | .rowsTake _ X => countLu X
  | .colsTake _ X => countLu X

/-! ## Semantic embedding

Matrices over a commutative star ring `R`, with the external dense
linear-algebra kernels and the random generator supplied as an explicit
bundle of functions. -/

open Matrix

/-- The external collaborators of `extmath.py`: the random generator's
`randn`, scipy's economy QR (orthonormal factor), scipy's
`lu(·, permute_l=True)` (permuted unit-lower factor, shape-preserving for
the wide-enough operands the algorithm feeds it), and scipy's thin SVD of
an `r×c` matrix with `r ≤ c` (so the factors are `r×r`, a length-`r`
vector, and `r×c`). -/
structure Kernels (R : Type) where
  randn : (r c : Nat) → Matrix (Fin r) (Fin c) R
  qr : {r c : Nat} → Matrix (Fin r) (Fin c) R → Matrix (Fin r) (Fin c) R
  lu : {r c : Nat} → Matrix (Fin r) (Fin c) R → Matrix (Fin r) (Fin c) R
  svd : {r c : Nat} → Matrix (Fin r) (Fin c) R →
    Matrix (Fin r) (Fin r) R × (Fin r → R) × Matrix (Fin r) (Fin c) R

variable {R : Type}

/-- One round of the power-iteration loop (`extmath.py` lines 67-76), over
semantic matrices. -/
def semStep [CommRing R] [StarRing R] {m n size : Nat}
    (A : Matrix (Fin m) (Fin n) R) (K : Kernels R) (pn : String)
    (Q : Matrix (Fin n) (Fin size) R) : Matrix (Fin n) (Fin size) R :=
  if pn = "none" then Aᴴ * (A * Q)
  else if pn = "LU" then K.lu (Aᴴ * K.lu (A * Q))
  else if pn = "QR" then K.qr (Aᴴ * K.qr (A * Q))
  else Q

/-- `for i in range(n_iter)` over `semStep`. -/
def semLoop [CommRing R] [StarRing R] {m n size : Nat}
    (A : Matrix (Fin m) (Fin n) R) (K : Kernels R) (pn : String)
    (Q : Matrix (Fin n) (Fin size) R) : Nat → Matrix (Fin n) (Fin size) R
  | 0 => Q
  | j + 1 => semStep A K pn (semLoop A K pn Q j)

/-- Semantic embedding of `approx_range_finder` (`extmath.py` lines 5-81):
draw `randn(A.shape[1], size)`, resolve `'auto'`, run the loop, and return
the orthonormal economy-QR factor of `A * Q`. -/
def approxRangeFinder [CommRing R] [StarRing R] {m n : Nat}
    (A : Matrix (Fin m) (Fin n) R) (size n_iter : Nat) (pn : String)
    (K : Kernels R) : Matrix (Fin m) (Fin size) R :=
  K.qr (A * semLoop A K (resolveNormalizer pn n_iter) (K.randn n size) n_iter)

/-- The projected sketch `B = Q.H * M` of `randomized_svd`
(`extmath.py` line 164). -/
def rsvdB [CommRing R] [StarRing R] {a b : Nat} (M : Matrix (Fin a) (Fin b) R)
    (sketch n_iter : Nat) (pn : String) (K : Kernels R) :
    Matrix (Fin sketch) (Fin b) R :=
  (approxRangeFinder M sketch n_iter pn K)ᴴ * M

/-- `X[:, :k]` for `k ≤ s` columns. -/
def truncCols {a s : Nat} (k : Nat) (h : k ≤ s)
    (X : Matrix (Fin a) (Fin s) R) : Matrix (Fin a) (Fin k) R :=
  X.submatrix id (Fin.castLE h)

/-- `X[:k, :]` for `k ≤ s` rows. -/
def truncRows {s b : Nat} (k : Nat) (h : k ≤ s)
    (X : Matrix (Fin s) (Fin b) R) : Matrix (Fin k) (Fin b) R :=
  X.submatrix (Fin.castLE h) id

/-- Semantic embedding of `randomized_svd` (`extmath.py` lines 150-178).
Both branches return `U : m×k`, `s : k`, and the third component as the
`n×k` matrix the source builds (`V[:k, :].H` untransposed,
`U[:, :k].conj()` transposed). -/
def randomizedSvd [CommRing R] [StarRing R] {m n : Nat}
    (M : Matrix (Fin m) (Fin n) R) (k p : Nat) (nIt : NIterArg)
    (pn : String) (tr : TransposeArg) (K : Kernels R) :
    Matrix (Fin m) (Fin k) R × (Fin k → R) × Matrix (Fin n) (Fin k) R :=
  let n_iter := resolve_n_iter m n k nIt
  if resolve_transpose m n tr then
    let Q := approxRangeFinder Mᵀ (k + p) n_iter pn K
    let out := K.svd (rsvdB Mᵀ (k + p) n_iter pn K)
    let U := Q * out.1
    ((truncRows k (Nat.le_add_right k p) out.2.2)ᵀ,
     fun i => out.2.1 (Fin.castLE (Nat.le_add_right k p) i),
     (truncCols k (Nat.le_add_right k p) U).map star)
  else
    let Q := approxRangeFinder M (k + p) n_iter pn K
    let out := K.svd (rsvdB M (k + p) n_iter pn K)
    let U := Q * out.1
    (truncCols k (Nat.le_add_right k p) U,
     fun i => out.2.1 (Fin.castLE (Nat.le_add_right k p) i),
     (truncRows k (Nat.le_add_right k p) out.2.2)ᴴ)

/-- Contract of scipy's thin SVD `B = Û·diag(ŝ)·V̂ᴴ` for a wide operand:
`Û` has orthonormal columns, `V̂ᴴ` has orthonormal rows, `ŝ` is descending
and non-negative, and the factors reconstruct `B` exactly. -/
def SvdSpec [CommRing R] [StarRing R] [Preorder R] {r c : Nat}
    (B : Matrix (Fin r) (Fin c) R)
    (out : Matrix (Fin r) (Fin r) R × (Fin r → R) × Matrix (Fin r) (Fin c) R) :
    Prop :=
  out.1ᴴ * out.1 = 1 ∧ out.2.2 * out.2.2ᴴ = 1 ∧ Antitone out.2.1 ∧
    (∀ i, 0 ≤ out.2.1 i) ∧ out.1 * Matrix.diagonal out.2.1 * out.2.2 = B

/-- The untruncated reconstruction `(Q·Û)·diag(ŝ)·V̂ᴴ` built from the
factors `randomized_svd` computes before truncation. -/
def rsvdRecon [CommRing R] [StarRing R] {a b : Nat}
    (M : Matrix (Fin a) (Fin b) R) (sketch n_iter : Nat) (pn : String)
    (K : Kernels R) : Matrix (Fin a) (Fin b) R :=
  let Q := approxRangeFinder M sketch n_iter pn K
  let out := K.svd (rsvdB M sketch n_iter pn K)
  Q * out.1 * Matrix.diagonal out.2.1 * out.2.2

/-- The projection `Q·(Qᴴ·M)` of `M` onto the range captured by the
sketch basis `Q`. -/
def rsvdProj [CommRing R] [StarRing R] {a b : Nat}
    (M : Matrix (Fin a) (Fin b) R) (sketch n_iter : Nat) (pn : String)
    (K : Kernels R) : Matrix (Fin a) (Fin b) R :=
  let Q := approxRangeFinder M sketch n_iter pn K
  Q * (Qᴴ * M)

/-! ## Helper lemmas -/

lemma submatrix_castLE_one [NonAssocSemiring R] {s k : Nat} (h : k ≤ s) :
    (1 : Matrix (Fin s) (Fin s) R).submatrix (Fin.castLE h) (Fin.castLE h)
      = 1 := by
  ext i j
  simp [Matrix.submatrix_apply, Matrix.one_apply, Fin.castLE_inj]

lemma truncCols_orthonormal [CommRing R] [StarRing R] {a s k : Nat}
    (h : k ≤ s) (X : Matrix (Fin a) (Fin s) R) (hX : Xᴴ * X = 1) :
    (truncCols k h X)ᴴ * truncCols k h X = 1 := by
  unfold truncCols
  rw [Matrix.conjTranspose_submatrix,
    ← Matrix.submatrix_mul Xᴴ X (Fin.castLE h) id (Fin.castLE h)
      Function.bijective_id, hX]
  exact submatrix_castLE_one h

lemma truncRows_orthonormal [CommRing R] [StarRing R] {s b k : Nat}
    (h : k ≤ s) (X : Matrix (Fin s) (Fin b) R) (hX : X * Xᴴ = 1) :
    truncRows k h X * (truncRows k h X)ᴴ = 1 := by
  unfold truncRows
  rw [Matrix.conjTranspose_submatrix,
    ← Matrix.submatrix_mul X Xᴴ (Fin.castLE h) id (Fin.castLE h)
      Function.bijective_id, hX]
  exact submatrix_castLE_one h

lemma truncCols_mul [CommRing R] {a s t k : Nat} (h : k ≤ t)
    (A : Matrix (Fin a) (Fin s) R) (B : Matrix (Fin s) (Fin t) R) :
    truncCols k h (A * B) = A * truncCols k h B := by
  unfold truncCols
  rw [Matrix.submatrix_mul A B id id (Fin.castLE h) Function.bijective_id,
    Matrix.submatrix_id_id]

lemma transpose_conjT {a b : Nat} [Star R] (W : Matrix (Fin a) (Fin b) R) :
    (Wᵀ)ᴴ = (Wᴴ)ᵀ :=
  rfl

lemma transpose_orthonormal [CommRing R] [StarRing R] {a b : Nat}
    (W : Matrix (Fin a) (Fin b) R) (hW : W * Wᴴ = 1) :
    (Wᵀ)ᴴ * Wᵀ = 1 := by
  rw [transpose_conjT, ← Matrix.transpose_mul, hW, Matrix.transpose_one]

lemma mapStar_conjT [CommRing R] [StarRing R] {a b : Nat}
    (X : Matrix (Fin a) (Fin b) R) : (X.map star)ᴴ = Xᵀ := by
  ext i j
  simp [Matrix.conjTranspose_apply, Matrix.map_apply, Matrix.transpose_apply]

lemma mapStar_orthonormal [CommRing R] [StarRing R] {a b : Nat}
    (X : Matrix (Fin a) (Fin b) R) (hX : Xᴴ * X = 1) :
    (X.map star)ᴴ * X.map star = 1 := by
  have key : (X.map star)ᴴ * X.map star = (Xᴴ * X).map star := by
    ext i j
    rw [Matrix.mul_apply, Matrix.map_apply, Matrix.mul_apply, star_sum]
    refine Finset.sum_congr rfl (fun l _ => ?_)
    simp [Matrix.conjTranspose_apply, Matrix.map_apply, StarMul.star_mul,
      mul_comm]
  rw [key, hX, Matrix.map_one star (star_zero R) (star_one R)]

lemma antitone_castLE {s k : Nat} [Preorder R] (h : k ≤ s) (v : Fin s → R)
    (hv : Antitone v) : Antitone (fun i => v (Fin.castLE h i)) := by
  intro a b hab
  exact hv hab

/-! ## Store-passing embedding

Every numpy/scipy operation performed by `extmath.py` returns a freshly
allocated array (or a fresh view object); none writes into an existing
array.  To make that a checkable property of the translated code, we give
an embedding where arrays live in an allocation-ordered heap and every
operation of the source is translated to reads plus an allocation.  A
write primitive exists in the model but is never used by the
translation. -/

/-- A stored array value: a matrix or a 1-D singular-value vector. -/
inductive SCell : Type where
  | mat (e : MExpr) : SCell
  | vec (v : VExpr) : SCell
deriving DecidableEq, Repr

/-- The heap of allocated arrays, in allocation order; an array reference
is an index into this list. -/
abbrev Store := List SCell

/-- Allocate a fresh array and return its index. -/
def stAlloc (x : SCell) : StateM Store Nat :=
  fun σ => (σ.length, σ ++ [x])

/-- Read a matrix cell (out-of-range or wrongly-typed reads default). -/
def stReadMat (i : Nat) : StateM Store MExpr :=
  fun σ =>
    (match σ.getD i (SCell.mat MExpr.input) with
     | SCell.mat e => e
     | SCell.vec _ => MExpr.input, σ)

/-- Read a vector cell. -/
def stReadVec (i : Nat) : StateM Store VExpr :=
  fun σ =>
    (match σ.getD i (SCell.vec (VExpr.svdS MExpr.input)) with
     | SCell.mat _ => VExpr.svdS MExpr.input
     | SCell.vec v => v, σ)

/-- In-place update of an existing array.  Present in the model so that
"never mutates the input" is a property of the translated code rather
than of the model; the translation of `extmath.py` never uses it. -/
def stWrite (i : Nat) (x : SCell) : StateM Store Unit :=
  fun σ => ((), σ.set i x)

/-- `np.asmatrix(X)`: wraps without copying or writing; a fresh view
object on the same value. -/
def st_asmatrix (i : Nat) : StateM Store Nat := do
  let X ← stReadMat i
  stAlloc (.mat X)

/-- `rgen.randn(r, c)`. -/
def st_randn (r c : Nat) : StateM Store Nat :=
  stAlloc (.mat (.randn r c))

/-- Matrix product `X * Y` / `np.dot(X, Y)`. -/
def st_mul (i j : Nat) : StateM Store Nat := do
  let X ← stReadMat i
  let Y ← stReadMat j
  stAlloc (.mat (.mul X Y))

/-- `X.H`. -/
def st_adjH (i : Nat) : StateM Store Nat := do
  let X ← stReadMat i
  stAlloc (.mat (.adjH X))

/-- `X.T`. -/
def st_transp (i : Nat) : StateM Store Nat := do
  let X ← stReadMat i
  stAlloc (.mat (.transp X))

/-- `X.conj()`. -/
def st_conj (i : Nat) : StateM Store Nat := do
  let X ← stReadMat i
  stAlloc (.mat (.conjE X))

/-- `linalg.qr(X, mode='economic')[0]`. -/
def st_qr (i : Nat) : StateM Store Nat := do
  let X ← stReadMat i
  stAlloc (.mat (.qrQ X))

/-- `linalg.lu(X, permute_l=True)[0]`. -/
def st_lu (i : Nat) : StateM Store Nat := do
  let X ← stReadMat i
  stAlloc (.mat (.luL X))

/-- `linalg.svd(X, full_matrices=False)`, allocating the three results. -/
def st_svd (i : Nat) : StateM Store (Nat × Nat × Nat) := do
  let X ← stReadMat i
  let iU ← stAlloc (.mat (.svdU X))
  let is ← stAlloc (.vec (.svdS X))
  let iV ← stAlloc (.mat (.svdVh X))
  pure (iU, is, iV)

/-- `X[:k, :]` (a view object). -/
def st_rowsTake (k i : Nat) : StateM Store Nat := do
  let X ← stReadMat i
  stAlloc (.mat (.rowsTake k X))

/-- `X[:, :k]` (a view object). -/
def st_colsTake (k i : Nat) : StateM Store Nat := do
  let X ← stReadMat i
  stAlloc (.mat (.colsTake k X))

/-- `v[:k]` on the singular-value vector. -/
def st_vecTake (k i : Nat) : StateM Store Nat := do
  let v ← stReadVec i
  stAlloc (.vec (.take k v))

/-- The power-iteration loop of `approx_range_finder` (`extmath.py`
lines 67-76), store-passing.  `Q = A * Q; Q = A.H * Q` with the chosen
normalization applied after each product, each operation allocating its
result. -/
def rfLoop_st (iA : Nat) (pn : String) (iQ : Nat) :
    Nat → StateM Store Nat
  | 0 => pure iQ
  | j + 1 => do
      let iQ' ← rfLoop_st iA pn iQ j
      if pn = "none" then
        let i1 ← st_mul iA iQ'
        let iAH ← st_adjH iA
        st_mul iAH i1
      else if pn = "LU" then
        let i1 ← st_mul iA iQ'
        let i2 ← st_lu i1
        let iAH ← st_adjH iA
        let i3 ← st_mul iAH i2
        st_lu i3
      else if pn = "QR" then
        let i1 ← st_mul iA iQ'
        let i2 ← st_qr i1
        let iAH ← st_adjH iA
        let i3 ← st_mul iAH i2
        st_qr i3
      else
        pure iQ'

/-- Store-passing embedding of `approx_range_finder` (`extmath.py`
lines 5-81): `A = np.asmatrix(A)`, random draw, resolve `'auto'`, loop,
`Q, _ = linalg.qr(A * Q, mode='economic')`, `return np.asmatrix(Q)`. -/
def approx_range_finder_st (iA : Nat) (aCols size n_iter : Nat)
    (pn : String) : StateM Store Nat := do
  let iA ← st_asmatrix iA
  let iQ0 ← st_randn aCols size
  let iQn ← rfLoop_st iA (resolveNormalizer pn n_iter) iQ0 n_iter
  let i1 ← st_mul iA iQn
  let i2 ← st_qr i1
  st_asmatrix i2

/-- The part of `randomized_svd` after the transposition decision
(`extmath.py` lines 163-178): range finder on the operating matrix,
`B = Q.H * M`, thin SVD, lift, truncate, and the branch-dependent
return. -/
def rsvd_tail_st (iM : Nat) (m n k p : Nat) (nIt : NIterArg) (pn : String)
    (transpose : Bool) : StateM Store (Nat × Nat × Nat) := do
  let iQ ← approx_range_finder_st iM (if transpose then m else n) (k + p)
    (resolve_n_iter m n k nIt) pn
  let iQH ← st_adjH iQ
  let iB ← st_mul iQH iM
  let out ← st_svd iB
  let iU ← st_mul iQ out.1
  if transpose then
    let a1 ← st_rowsTake k out.2.2
    let a2 ← st_asmatrix a1
    let a3 ← st_transp a2
    let b1 ← st_vecTake k out.2.1
    let c1 ← st_colsTake k iU
    let c2 ← st_asmatrix c1
    let c3 ← st_conj c2
    pure (a3, b1, c3)
  else
    let a1 ← st_colsTake k iU
    let a2 ← st_asmatrix a1
    let b1 ← st_vecTake k out.2.1
    let c1 ← st_rowsTake k out.2.2
    let c2 ← st_asmatrix c1
    let c3 ← st_adjH c2
    pure (a2, b1, c3)

/-- Store-passing embedding of `randomized_svd` (`extmath.py`
lines 150-178), returning references to the `(U, s, V)` triple. -/
def randomized_svd_st (iM : Nat) (m n k p : Nat) (nIt : NIterArg)
    (pn : String) (tr : TransposeArg) : StateM Store (Nat × Nat × Nat) := do
  let iM ← st_asmatrix iM
  let transpose := resolve_transpose m n tr
  if transpose then
    let iM2 ← st_transp iM
    rsvd_tail_st iM2 m n k p nIt pn transpose
  else
    rsvd_tail_st iM m n k p nIt pn transpose

/-- A store computation only ever appends to the heap: existing cells are
never written. -/
def StGrows {α : Type} (prog : StateM Store α) : Prop :=
  ∀ σ : Store, ∃ δ : Store, (prog.run σ).2 = σ ++ δ

lemma stGrows_pure {α : Type} (a : α) : StGrows (pure a) :=
  fun σ => ⟨[], (List.append_nil σ).symm⟩

lemma run_bind {α β : Type} (prog : StateM Store α)
    (f : α → StateM Store β) (σ : Store) :
    ((prog >>= f).run σ) = (f (prog.run σ).1).run (prog.run σ).2 :=
  rfl

lemma stGrows_bind {α β : Type} {prog : StateM Store α}
    {f : α → StateM Store β} (hp : StGrows prog)
    (hf : ∀ a, StGrows (f a)) : StGrows (prog >>= f) := by
  intro σ
  obtain ⟨δ₁, h₁⟩ := hp σ
  obtain ⟨δ₂, h₂⟩ := hf (prog.run σ).1 (prog.run σ).2
  exact ⟨δ₁ ++ δ₂, by rw [run_bind, h₂, h₁, List.append_assoc]⟩

lemma stGrows_alloc (x : SCell) : StGrows (stAlloc x) :=
  fun _ => ⟨[x], rfl⟩

lemma stGrows_readMat (i : Nat) : StGrows (stReadMat i) :=
  fun σ => ⟨[], (List.append_nil σ).symm⟩

lemma stGrows_readVec (i : Nat) : StGrows (stReadVec i) :=
  fun σ => ⟨[], (List.append_nil σ).symm⟩

lemma stGrows_asmatrix (i : Nat) : StGrows (st_asmatrix i) :=
  stGrows_bind (stGrows_readMat i) (fun _ => stGrows_alloc _)

lemma stGrows_randn (r c : Nat) : StGrows (st_randn r c) :=
  stGrows_alloc _

lemma stGrows_mul (i j : Nat) : StGrows (st_mul i j) :=
  stGrows_bind (stGrows_readMat i)
    (fun _ => stGrows_bind (stGrows_readMat j) (fun _ => stGrows_alloc _))

lemma stGrows_adjH (i : Nat) : StGrows (st_adjH i) :=
  stGrows_bind (stGrows_readMat i) (fun _ => stGrows_alloc _)

lemma stGrows_transp (i : Nat) : StGrows (st_transp i) :=
  stGrows_bind (stGrows_readMat i) (fun _ => stGrows_alloc _)

lemma stGrows_conj (i : Nat) : StGrows (st_conj i) :=
  stGrows_bind (stGrows_readMat i) (fun _ => stGrows_alloc _)

lemma stGrows_qr (i : Nat) : StGrows (st_qr i) :=
  stGrows_bind (stGrows_readMat i) (fun _ => stGrows_alloc _)

lemma stGrows_lu (i : Nat) : StGrows (st_lu i) :=
  stGrows_bind (stGrows_readMat i) (fun _ => stGrows_alloc _)

lemma stGrows_svd (i : Nat) : StGrows (st_svd i) :=
  stGrows_bind (stGrows_readMat i) (fun _ =>
    stGrows_bind (stGrows_alloc _) (fun _ =>
      stGrows_bind (stGrows_alloc _) (fun _ =>
        stGrows_bind (stGrows_alloc _) (fun _ => stGrows_pure _))))

lemma stGrows_rowsTake (k i : Nat) : StGrows (st_rowsTake k i) :=
  stGrows_bind (stGrows_readMat i) (fun _ => stGrows_alloc _)

lemma stGrows_colsTake (k i : Nat) : StGrows (st_colsTake k i) :=
  stGrows_bind (stGrows_readMat i) (fun _ => stGrows_alloc _)

lemma stGrows_vecTake (k i : Nat) : StGrows (st_vecTake k i) :=
  stGrows_bind (stGrows_readVec i) (fun _ => stGrows_alloc _)

lemma stGrows_rfLoop (iA : Nat) (pn : String) (iQ : Nat) :
    ∀ n_iter : Nat, StGrows (rfLoop_st iA pn iQ n_iter) := by
  intro n_iter
  induction n_iter with
  | zero => exact stGrows_pure iQ
  | succ j ih =>
      refine stGrows_bind ih (fun iQ' => ?_)
      by_cases h0 : pn = "none"
      · simp only [rfLoop_st, h0, if_true]
        exact stGrows_bind (stGrows_mul _ _) (fun _ =>
          stGrows_bind (stGrows_adjH _) (fun _ => stGrows_mul _ _))
      by_cases h1 : pn = "LU"
      · simp only [rfLoop_st, h0, h1, if_false, if_true]
        exact stGrows_bind (stGrows_mul _ _) (fun _ =>
          stGrows_bind (stGrows_lu _) (fun _ =>
            stGrows_bind (stGrows_adjH _) (fun _ =>
              stGrows_bind (stGrows_mul _ _) (fun _ => stGrows_lu _))))
      by_cases h2 : pn = "QR"
      · simp only [rfLoop_st, h0, h1, h2, if_false, if_true]
        exact stGrows_bind (stGrows_mul _ _) (fun _ =>
          stGrows_bind (stGrows_qr _) (fun _ =>
            stGrows_bind (stGrows_adjH _) (fun _ =>
              stGrows_bind (stGrows_mul _ _) (fun _ => stGrows_qr _))))
      · simp only [rfLoop_st, h0, h1, h2, if_false]
        exact stGrows_pure iQ'

lemma stGrows_arf (iA aCols size n_iter : Nat) (pn : String) :
    StGrows (approx_range_finder_st iA aCols size n_iter pn) :=
  stGrows_bind (stGrows_asmatrix _) (fun _ =>
    stGrows_bind (stGrows_randn _ _) (fun _ =>
      stGrows_bind (stGrows_rfLoop _ _ _ _) (fun _ =>
        stGrows_bind (stGrows_mul _ _) (fun _ =>
          stGrows_bind (stGrows_qr _) (fun _ => stGrows_asmatrix _)))))

lemma stGrows_rsvd_tail (iM m n k p : Nat) (nIt : NIterArg) (pn : String)
    (transpose : Bool) :
    StGrows (rsvd_tail_st iM m n k p nIt pn transpose) := by
  refine stGrows_bind (stGrows_arf _ _ _ _ _) (fun _ => ?_)
  refine stGrows_bind (stGrows_adjH _) (fun _ => ?_)
  refine stGrows_bind (stGrows_mul _ _) (fun _ => ?_)
  refine stGrows_bind (stGrows_svd _) (fun _ => ?_)
  refine stGrows_bind (stGrows_mul _ _) (fun _ => ?_)
  cases transpose
  · simp only [Bool.false_eq_true, if_false]
    exact stGrows_bind (stGrows_colsTake _ _) (fun _ =>
      stGrows_bind (stGrows_asmatrix _) (fun _ =>
        stGrows_bind (stGrows_vecTake _ _) (fun _ =>
          stGrows_bind (stGrows_rowsTake _ _) (fun _ =>
            stGrows_bind (stGrows_asmatrix _) (fun _ =>
              stGrows_bind (stGrows_adjH _) (fun _ => stGrows_pure _))))))
  · simp only [if_true]
    exact stGrows_bind (stGrows_rowsTake _ _) (fun _ =>
      stGrows_bind (stGrows_asmatrix _) (fun _ =>
        stGrows_bind (stGrows_transp _) (fun _ =>
          stGrows_bind (stGrows_vecTake _ _) (fun _ =>
            stGrows_bind (stGrows_colsTake _ _) (fun _ =>
              stGrows_bind (stGrows_asmatrix _) (fun _ =>
                stGrows_bind (stGrows_conj _) (fun _ => stGrows_pure _)))))))

lemma stGrows_rsvd (iM m n k p : Nat) (nIt : NIterArg) (pn : String)
    (tr : TransposeArg) :
    StGrows (randomized_svd_st iM m n k p nIt pn tr) := by
  refine stGrows_bind (stGrows_asmatrix _) (fun _ => ?_)
  cases resolve_transpose m n tr
  · simp only [Bool.false_eq_true, if_false]
    exact stGrows_rsvd_tail _ _ _ _ _ _ _ _
  · simp only [if_true]
    exact stGrows_bind (stGrows_transp _)
      (fun _ => stGrows_rsvd_tail _ _ _ _ _ _ _ _)

/-! ## The `rgen` parameter -/

/-- The `rgen` argument of the two entry points: either the module-level
global `np.random` (numpy's process-wide shared generator) or an
explicitly constructed caller-owned `RandomState` instance. -/
inductive RGenArg : Type where
  | npRandomModule : RGenArg
  | randomState (seed : Nat) : RGenArg
deriving DecidableEq, Repr

/-- `extmath.py` line 6: the declared default value of the `rgen`
parameter of `approx_range_finder` is the module `np.random`. -/
def approx_range_finder_rgen_default : RGenArg := .npRandomModule

/-- `extmath.py` line 86: the declared default value of the `rgen`
parameter of `randomized_svd` is the module `np.random`. -/
def randomized_svd_rgen_default : RGenArg := .npRandomModule

/-- Whether an `rgen` argument is the process-wide shared generator
(numpy's global `np.random` state) rather than a caller-owned
instance. -/
def RGenArg.isProcessWideGlobal : RGenArg → Bool
  | .npRandomModule => true
  | .randomState _ => false

/-! ## Shape and loop lemmas -/

lemma rfLoop_shape {m n size : Nat} (hm : size ≤ m) (hn : size ≤ n)
    (pn : String) : ∀ j : Nat,
    eshape (m, n) (rfLoop .input pn (.randn n size) j) = some (n, size) := by
  intro j
  induction j with
  | zero => simp [rfLoop, eshape]
  | succ j ih =>
      simp only [rfLoop, rfStep]
      by_cases h0 : pn = "none"
      · rw [if_pos h0]
        simp [eshape, ih]
      rw [if_neg h0]
      by_cases h1 : pn = "LU"
      · rw [if_pos h1]
        simp [eshape, ih, Nat.min_eq_right hm, Nat.min_eq_right hn]
      rw [if_neg h1]
      by_cases h2 : pn = "QR"
      · rw [if_pos h2]
        simp [eshape, ih, Nat.min_eq_right hm, Nat.min_eq_right hn]
      rw [if_neg h2]
      exact ih

lemma arf_shape {m n : Nat} (size n_iter : Nat) (pn : String)
    (hm : size ≤ m) (hn : size ≤ n) :
    eshape (m, n) (approx_range_finder_sym .input n size n_iter pn)
      = some (m, size) := by
  simp only [approx_range_finder_sym]
  simp [eshape, rfLoop_shape hm hn (resolveNormalizer pn n_iter) n_iter,
    Nat.min_eq_right hm]

lemma rfLoop_unmatched (A Q : MExpr) (pn : String) (h0 : pn ≠ "none")
    (h1 : pn ≠ "LU") (h2 : pn ≠ "QR") :
    ∀ j : Nat, rfLoop A pn Q j = Q := by
  intro j
  induction j with
  | zero => rfl
  | succ j ih =>
      simp only [rfLoop, rfStep, ih]
      rw [if_neg h0, if_neg h1, if_neg h2]

/-- The expression produced by `n_iter` rounds of LU-normalized power
iteration: each round multiplies by `A`, takes the permuted lower LU
factor, multiplies by `A.H`, and takes the permuted lower LU factor
again. -/
def luTower (A Q0 : MExpr) : Nat → MExpr
  | 0 => Q0
  | j + 1 => .luL (.mul (.adjH A) (.luL (.mul A (luTower A Q0 j))))

/-- The expression produced by `n_iter` rounds of QR-normalized power
iteration. -/
def qrTower (A Q0 : MExpr) : Nat → MExpr
  | 0 => Q0
  | j + 1 => .qrQ (.mul (.adjH A) (.qrQ (.mul A (qrTower A Q0 j))))

lemma rfLoop_LU (A Q : MExpr) : ∀ j : Nat,
    rfLoop A "LU" Q j = luTower A Q j := by
  intro j
  induction j with
  | zero => rfl
  | succ j ih =>
      simp [rfLoop, rfStep, luTower, ih]

lemma rfLoop_QR (A Q : MExpr) : ∀ j : Nat,
    rfLoop A "QR" Q j = qrTower A Q j := by
  intro j
  induction j with
  | zero => rfl
  | succ j ih =>
      simp [rfLoop, rfStep, qrTower, ih]

lemma arf_resolved_congr (A : MExpr) (aCols size n_iter : Nat)
    {pn pn' : String}
    (h : resolveNormalizer pn n_iter = resolveNormalizer pn' n_iter) :
    approx_range_finder_sym A aCols size n_iter pn
      = approx_range_finder_sym A aCols size n_iter pn' := by
  simp only [approx_range_finder_sym, h]

lemma rsvd_normalizer_congr (m n k p : Nat) (nIt : NIterArg)
    (tr : TransposeArg) {pn pn' : String}
    (h : resolveNormalizer pn (resolve_n_iter m n k nIt)
        = resolveNormalizer pn' (resolve_n_iter m n k nIt)) :
    randomized_svd_sym m n k p nIt pn tr
      = randomized_svd_sym m n k p nIt pn' tr := by
  simp only [randomized_svd_sym, randomized_svd_ev, approx_range_finder_ev,
    arf_resolved_congr _ _ _ _ h]

lemma rsvd_nIter_congr (m n k p : Nat) (pn : String) (tr : TransposeArg)
    {a b : NIterArg} (h : resolve_n_iter m n k a = resolve_n_iter m n k b) :
    randomized_svd_sym m n k p a pn tr
      = randomized_svd_sym m n k p b pn tr := by
  simp only [randomized_svd_sym, randomized_svd_ev, approx_range_finder_ev, h]

/-! ## Claims -/

/-- C6: for every call (directly or via `randomized_svd`) with
`piter_normalizer='auto'`, the resolved mode is `'none'` when
`n_iter ≤ 2` and `'LU'` otherwise, a pure function of `n_iter` alone. -/
theorem C6_auto_normalizer_resolution :
    (∀ n_iter : Nat, resolveNormalizer "auto" n_iter
        = (if n_iter ≤ 2 then "none" else "LU"))
    ∧ (∀ (A : MExpr) (aCols size n_iter : Nat),
        approx_range_finder_sym A aCols size n_iter "auto"
          = approx_range_finder_sym A aCols size n_iter
              (if n_iter ≤ 2 then "none" else "LU"))
    ∧ (∀ (m n k p : Nat) (nIt : NIterArg) (tr : TransposeArg),
        randomized_svd_sym m n k p nIt "auto" tr
          = randomized_svd_sym m n k p nIt
              (if resolve_n_iter m n k nIt ≤ 2 then "none" else "LU") tr) := by
  have key : ∀ n_iter : Nat, resolveNormalizer "auto" n_iter
      = resolveNormalizer (if n_iter ≤ 2 then "none" else "LU") n_iter := by
    intro n_iter
    by_cases h : n_iter ≤ 2
    · simp [resolveNormalizer, h]
    · simp [resolveNormalizer, h]
  refine ⟨?_, ?_, ?_⟩
  · intro n_iter
    simp [resolveNormalizer]
  · intro A aCols size n_iter
    exact arf_resolved_congr A aCols size n_iter (key n_iter)
  · intro m n k p nIt tr
    exact rsvd_normalizer_congr m n k p nIt tr (key _)

/-- C7: with `n_iter='auto'`, `randomized_svd` resolves the iteration
count to 7 exactly when `n_components < 0.1 * min(M.shape)` and to 4
otherwise, a pure function of `n_components` and the shape of `M`. -/
theorem C7_auto_n_iter_resolution :
    (∀ m n k : Nat, resolve_n_iter m n k .auto
        = (if 10 * k < min m n then 7 else 4))
    ∧ (∀ (m n k p : Nat) (pn : String) (tr : TransposeArg),
        randomized_svd_sym m n k p .auto pn tr
          = randomized_svd_sym m n k p
              (.num (if 10 * k < min m n then 7 else 4)) pn tr) := by
  have hiff : ∀ m n k : Nat,
      ((k : ℚ) < (1 / 10 : ℚ) * ((min m n : Nat) : ℚ)) ↔ 10 * k < min m n := by
    intro m n k
    rw [div_mul_eq_mul_div, one_mul,
      lt_div_iff₀ (by norm_num : (0 : ℚ) < 10), mul_comm]
    exact_mod_cast Iff.rfl
  have key : ∀ m n k : Nat, resolve_n_iter m n k .auto
      = (if 10 * k < min m n then 7 else 4) := by
    intro m n k
    simp only [resolve_n_iter]
    exact if_congr (hiff m n k) rfl rfl
  refine ⟨key, ?_⟩
  intro m n k p pn tr
  exact rsvd_nIter_congr m n k p pn tr (by rw [key, resolve_n_iter])

/-- C8: with `transpose='auto'`, `randomized_svd` transposes exactly when
`m < n`; in that case the whole pipeline operates on `M.T` and the
returned triple swaps the roles of the two singular-vector factors,
transposing the right factor and conjugating the lifted left factor. -/
theorem C8_auto_transpose_resolution (m n k p : Nat) (nIt : NIterArg)
    (pn : String) :
    resolve_transpose m n .auto = decide (m < n)
    ∧ randomized_svd_sym m n k p nIt pn .auto
        = (if m < n then
            ((MExpr.transp (.rowsTake k (.svdVh (.mul
                (.adjH (approx_range_finder_sym (.transp .input) m (k + p)
                  (resolve_n_iter m n k nIt) pn)) (.transp .input)))),
              VExpr.take k (.svdS (.mul
                (.adjH (approx_range_finder_sym (.transp .input) m (k + p)
                  (resolve_n_iter m n k nIt) pn)) (.transp .input))),
              MExpr.conjE (.colsTake k (.mul
                (approx_range_finder_sym (.transp .input) m (k + p)
                  (resolve_n_iter m n k nIt) pn)
                (.svdU (.mul
                  (.adjH (approx_range_finder_sym (.transp .input) m (k + p)
                    (resolve_n_iter m n k nIt) pn)) (.transp .input)))))))
          else
            ((MExpr.colsTake k (.mul
                (approx_range_finder_sym .input n (k + p)
                  (resolve_n_iter m n k nIt) pn)
                (.svdU (.mul
                  (.adjH (approx_range_finder_sym .input n (k + p)
                    (resolve_n_iter m n k nIt) pn)) .input))),
              VExpr.take k (.svdS (.mul
                (.adjH (approx_range_finder_sym .input n (k + p)
                  (resolve_n_iter m n k nIt) pn)) .input)),
              MExpr.adjH (.rowsTake k (.svdVh (.mul
                (.adjH (approx_range_finder_sym .input n (k + p)
                  (resolve_n_iter m n k nIt) pn)) .input)))))) := by
  refine ⟨rfl, ?_⟩
  by_cases h : m < n
  · rw [if_pos h]
    simp [randomized_svd_sym, randomized_svd_ev, approx_range_finder_ev,
      resolve_transpose, h]
  · rw [if_neg h]
    simp [randomized_svd_sym, randomized_svd_ev, approx_range_finder_ev,
      resolve_transpose, h]

/-- The non-transposed `randomized_svd` pipeline exactly as §4.2 of the
spec describes it: sketch size `k + p`, one range-finder call at that
size, `B = Qᴴ·M`, thin SVD of `B`, lift `U = Q·Û`, truncate to `k`. -/
def specPipelinePlain (m n k p : Nat) (nIt : NIterArg) (pn : String) :
    MExpr × VExpr × MExpr :=
  let sketch := k + p
  let Q := approx_range_finder_sym .input n sketch
    (resolve_n_iter m n k nIt) pn
  let B := MExpr.mul (.adjH Q) .input
  (MExpr.colsTake k (.mul Q (.svdU B)), VExpr.take k (.svdS B),
   MExpr.adjH (.rowsTake k (.svdVh B)))

/-- C3: in the non-transposed path, `randomized_svd` uses sketch size
`n_components + n_oversamples`, calls `approx_range_finder` exactly once
with that size, forms `B = Qᴴ·M` of dimension `sketch_size × n`, runs the
thin SVD on `B`, and lifts `U = Q·Û` before truncating. -/
theorem C3_nontransposed_pipeline (m n k p : Nat) (nIt : NIterArg)
    (pn : String) (hm : k + p ≤ m) (hn : k + p ≤ n) :
    randomized_svd_sym m n k p nIt pn (.fixed false)
        = specPipelinePlain m n k p nIt pn
    ∧ eshape (m, n)
        (MExpr.mul (.adjH (approx_range_finder_sym .input n (k + p)
          (resolve_n_iter m n k nIt) pn)) .input) = some (k + p, n)
    ∧ (randomized_svd_ev m n k p nIt pn (.fixed false)).2
        = [RfEvent.rangeFinderCall (k + p) (resolve_n_iter m n k nIt)] := by
  refine ⟨rfl, ?_, rfl⟩
  generalize hQ : approx_range_finder_sym .input n (k + p)
    (resolve_n_iter m n k nIt) pn = Q
  have hsh : eshape (m, n) Q = some (m, k + p) := by
    rw [← hQ]
    exact arf_shape (k + p) (resolve_n_iter m n k nIt) pn hm hn
  simp [eshape, hsh]

/-- Concrete instance of `C3_nontransposed_pipeline` at `m = n = 2`,
`k = p = 1`. -/
theorem C3_nontransposed_pipeline_witness :
    (1 + 1 ≤ 2)
    ∧ (randomized_svd_sym 2 2 1 1 (.num 0) "none" (.fixed false)
          = specPipelinePlain 2 2 1 1 (.num 0) "none"
      ∧ eshape (2, 2)
          (MExpr.mul (.adjH (approx_range_finder_sym .input 2 (1 + 1)
            (resolve_n_iter 2 2 1 (.num 0)) "none")) .input)
          = some (1 + 1, 2)
      ∧ (randomized_svd_ev 2 2 1 1 (.num 0) "none" (.fixed false)).2
          = [RfEvent.rangeFinderCall (1 + 1) (resolve_n_iter 2 2 1 (.num 0))]) :=
  ⟨by decide,
   C3_nontransposed_pipeline 2 2 1 1 (.num 0) "none" (by decide) (by decide)⟩

/-- C4 counterexample: with the spec's lowercase spellings `'lu'` / `'qr'`
and `n_iter = 1`, no normalization (indeed no power iteration at all) is
performed: the result is the plain `n_iter = 0` expression, contains no
LU node, and differs from the expression a normalized round would
build. -/
theorem C4_lowercase_normalizer_cex :
    approx_range_finder_sym .input 2 1 1 "lu"
        = MExpr.qrQ (.mul .input (.randn 2 1))
    ∧ countLu (approx_range_finder_sym .input 2 1 1 "lu") = 0
    ∧ approx_range_finder_sym .input 2 1 1 "lu"
        ≠ MExpr.qrQ (.mul .input
            (.luL (.mul (.adjH .input) (.luL (.mul .input (.randn 2 1))))))
    ∧ approx_range_finder_sym .input 2 1 1 "qr"
        ≠ MExpr.qrQ (.mul .input
            (.qrQ (.mul (.adjH .input) (.qrQ (.mul .input (.randn 2 1)))))) :=
  ⟨by decide, by decide, by decide, by decide⟩

/-- C4 (amended): for the modes as the code spells them, `'LU'` and
`'QR'`, every one of the `n_iter` rounds performs `Q ← A·Q` then
`Q ← Aᴴ·Q` with the chosen normalization applied once after each of the
two multiplications (`'LU'`: permuted unit-lower LU factor; `'QR'`:
orthonormal economy-QR factor), followed by the final `A·Q` and QR. -/
theorem C4_uppercase_normalizer_rounds (A : MExpr)
    (aCols size n_iter : Nat) :
    approx_range_finder_sym A aCols size n_iter "LU"
        = MExpr.qrQ (.mul A (luTower A (.randn aCols size) n_iter))
    ∧ approx_range_finder_sym A aCols size n_iter "QR"
        = MExpr.qrQ (.mul A (qrTower A (.randn aCols size) n_iter)) := by
  constructor
  · simp only [approx_range_finder_sym,
      show resolveNormalizer "LU" n_iter = "LU" from by simp [resolveNormalizer]]
    rw [rfLoop_LU]
  · simp only [approx_range_finder_sym,
      show resolveNormalizer "QR" n_iter = "QR" from by simp [resolveNormalizer]]
    rw [rfLoop_QR]

/-- C5: any resolved normalizer string other than `'none'`, `'LU'`, `'QR'`
(for example the lowercase `'lu'` or `'qr'`) matches no branch of the
loop body: every power-iteration round is silently skipped, no error is
raised, and the result is the `n_iter = 0` result, the economy-QR
orthonormal factor of `A` times the initial random matrix. -/
theorem C5_unmatched_normalizer_skips (A : MExpr)
    (aCols size n_iter : Nat) (pn : String)
    (h : resolveNormalizer pn n_iter ∉ (["none", "LU", "QR"] : List String)) :
    approx_range_finder_sym A aCols size n_iter pn
        = MExpr.qrQ (.mul A (.randn aCols size))
    ∧ approx_range_finder_sym A aCols size n_iter pn
        = approx_range_finder_sym A aCols size 0 pn := by
  have hne : pn ≠ "auto" := by
    intro hpn
    subst hpn
    by_cases h2 : n_iter ≤ 2
    · simp [resolveNormalizer, h2] at h
    · simp [resolveNormalizer, h2] at h
  have hres : ∀ j : Nat, resolveNormalizer pn j = pn := by
    intro j
    simp [resolveNormalizer, hne]
  rw [hres n_iter] at h
  have h0 : pn ≠ "none" := fun he => h (by simp [he])
  have h1 : pn ≠ "LU" := fun he => h (by simp [he])
  have h2 : pn ≠ "QR" := fun he => h (by simp [he])
  constructor
  · simp only [approx_range_finder_sym, hres,
      rfLoop_unmatched A _ pn h0 h1 h2]
  · simp only [approx_range_finder_sym, hres,
      rfLoop_unmatched A _ pn h0 h1 h2, rfLoop]

/-- Concrete instance of `C5_unmatched_normalizer_skips` at the lowercase
spelling `'lu'` with `n_iter = 3`. -/
theorem C5_unmatched_normalizer_skips_witness :
    (resolveNormalizer "lu" 3 ∉ (["none", "LU", "QR"] : List String))
    ∧ (approx_range_finder_sym .input 2 1 3 "lu"
          = MExpr.qrQ (.mul .input (.randn 2 1))
      ∧ approx_range_finder_sym .input 2 1 3 "lu"
          = approx_range_finder_sym .input 2 1 0 "lu") :=
  ⟨by decide, C5_unmatched_normalizer_skips .input 2 1 3 "lu" (by decide)⟩

/-! ## Concrete kernels for witnesses -/

/-- The `r×c` matrix with ones on the main diagonal and zeros elsewhere.
For `c ≤ r` its columns are orthonormal, so it satisfies the QR-factor
contract; it also serves as a concrete row-orthonormal `V̂ᴴ`. -/
def eyeLike (R : Type) [Zero R] [One R] (r c : Nat) :
    Matrix (Fin r) (Fin c) R :=
  Matrix.of fun i j => if (i : Nat) = (j : Nat) then 1 else 0

lemma eyeLike_eq_truncCols_one {R : Type} [NonAssocSemiring R]
    {r c : Nat} (h : c ≤ r) :
    eyeLike R r c = truncCols c h (1 : Matrix (Fin r) (Fin r) R) := by
  ext i j
  simp [eyeLike, truncCols, Matrix.one_apply, Fin.ext_iff]

lemma eyeLike_orthonormal {R : Type} [CommRing R] [StarRing R]
    {r c : Nat} (h : c ≤ r) :
    (eyeLike R r c)ᴴ * eyeLike R r c = 1 := by
  rw [eyeLike_eq_truncCols_one h]
  exact truncCols_orthonormal h 1
    (by rw [Matrix.conjTranspose_one, Matrix.one_mul])

/-- A concrete kernel bundle over `ℤ` for witnesses: `randn` draws the
all-ones matrix, `qr` returns the orthonormal `eyeLike` pattern, `lu` is
the identity, and `svd` returns `(1, all-ones values, eyeLike)`. -/
def qTriv : Kernels ℤ where
  randn := fun _ _ => Matrix.of fun _ _ => 1
  qr := fun {r c} _ => eyeLike ℤ r c
  lu := fun {_ _} X => X
  svd := fun {r c} _ => (1, fun _ => 1, eyeLike ℤ r c)

/-- C2: `approx_range_finder` always ends with `Q ← A·Q` followed by the
economy-QR orthonormal factor, for every normalizer string and every
`n_iter` (including 0); the returned basis has shape `(m, size)` and,
under the QR-factor contract, orthonormal columns. -/
theorem C2_range_finder_final_qr (m n size n_iter : Nat) (pn : String)
    (hm : size ≤ m) (hn : size ≤ n) (R : Type) [CommRing R] [StarRing R]
    (A : Matrix (Fin m) (Fin n) R) (K : Kernels R)
    (hqr : ∀ (r c : Nat), c ≤ r → ∀ X : Matrix (Fin r) (Fin c) R,
      (K.qr X)ᴴ * K.qr X = 1) :
    approx_range_finder_sym .input n size n_iter pn
        = MExpr.qrQ (.mul .input (rfLoop .input
            (resolveNormalizer pn n_iter) (.randn n size) n_iter))
    ∧ eshape (m, n) (approx_range_finder_sym .input n size n_iter pn)
        = some (m, size)
    ∧ approxRangeFinder A size n_iter pn K
        = K.qr (A * semLoop A K (resolveNormalizer pn n_iter)
            (K.randn n size) n_iter)
    ∧ (approxRangeFinder A size n_iter pn K)ᴴ
        * approxRangeFinder A size n_iter pn K = 1 := by
  refine ⟨rfl, arf_shape size n_iter pn hm hn, rfl, ?_⟩
  exact hqr m size hm _

/-- Concrete instance of `C2_range_finder_final_qr` over `ℤ` with the
`qTriv` kernels at `m = n = size = 1`, `n_iter = 0`. -/
theorem C2_range_finder_final_qr_witness :
    (1 ≤ 1)
    ∧ (∀ (r c : Nat), c ≤ r → ∀ X : Matrix (Fin r) (Fin c) ℤ,
        (qTriv.qr X)ᴴ * qTriv.qr X = 1)
    ∧ (approx_range_finder_sym .input 1 1 0 "none"
          = MExpr.qrQ (.mul .input (rfLoop .input
              (resolveNormalizer "none" 0) (.randn 1 1) 0))
      ∧ eshape (1, 1) (approx_range_finder_sym .input 1 1 0 "none")
          = some (1, 1)
      ∧ approxRangeFinder (1 : Matrix (Fin 1) (Fin 1) ℤ) 1 0 "none" qTriv
          = qTriv.qr ((1 : Matrix (Fin 1) (Fin 1) ℤ)
              * semLoop (1 : Matrix (Fin 1) (Fin 1) ℤ) qTriv
                  (resolveNormalizer "none" 0) (qTriv.randn 1 1) 0)
      ∧ (approxRangeFinder (1 : Matrix (Fin 1) (Fin 1) ℤ) 1 0 "none"
            qTriv)ᴴ
          * approxRangeFinder (1 : Matrix (Fin 1) (Fin 1) ℤ) 1 0 "none"
              qTriv = 1) :=
  ⟨le_refl 1, fun _ _ hc _ => eyeLike_orthonormal hc,
   C2_range_finder_final_qr 1 1 1 0 "none" (le_refl 1) (le_refl 1) ℤ 1
     qTriv (fun _ _ hc _ => eyeLike_orthonormal hc)⟩

/-! ## C1: the returned triple -/

lemma lift_trunc_orthonormal [CommRing R] [StarRing R] {a sk k : Nat}
    (h : k ≤ sk) (Q : Matrix (Fin a) (Fin sk) R)
    (Uh : Matrix (Fin sk) (Fin sk) R) (hQ : Qᴴ * Q = 1)
    (hU : Uhᴴ * Uh = 1) :
    (truncCols k h (Q * Uh))ᴴ * truncCols k h (Q * Uh) = 1 := by
  rw [truncCols_mul h Q Uh, Matrix.conjTranspose_mul, Matrix.mul_assoc,
    ← Matrix.mul_assoc Qᴴ Q (truncCols k h Uh), hQ, Matrix.one_mul]
  exact truncCols_orthonormal h Uh hU

lemma recon_eq_proj [CommRing R] [StarRing R] {a b : Nat}
    (M : Matrix (Fin a) (Fin b) R) (sk nit : Nat) (pn : String)
    (K : Kernels R)
    (hrec : (K.svd (rsvdB M sk nit pn K)).1
        * Matrix.diagonal (K.svd (rsvdB M sk nit pn K)).2.1
        * (K.svd (rsvdB M sk nit pn K)).2.2 = rsvdB M sk nit pn K) :
    rsvdRecon M sk nit pn K = rsvdProj M sk nit pn K := by
  have h2 := hrec
  simp only [rsvdRecon, rsvdProj]
  simp only [Matrix.mul_assoc] at h2 ⊢
  rw [h2, rsvdB]

/-- C1 counterexample: on a 30×25 input with `n_components = 2` and the
default `n_oversamples = 10`, the third component returned by
`randomized_svd` has shape `25 × 2` (`n × n_components`, orthonormal
*columns*: it is `V̂ᴴ[:2, :].H`), not the `n_components × n = 2 × 25`
row-orthonormal matrix the claim states. -/
theorem C1_V_orientation_cex :
    eshape (30, 25)
        (randomized_svd_sym 30 25 2 10 (.num 4) "auto" .auto).2.2
      = some (25, 2)
    ∧ ((25, 2) : Nat × Nat) ≠ (2, 25) :=
  ⟨by decide, by decide⟩

/-- C1 (amended): under the documented kernel contracts, `randomized_svd`
returns `(U, s, V)` with `U : m × n_components` having orthonormal
columns, `s` the first `n_components` singular values (descending,
non-negative), and `V : n × n_components` having orthonormal columns (the
conjugate transpose of the first `n_components` rows of the small SVD's
`V̂ᴴ`); before truncation the factors reconstruct the projection
`Q·Qᴴ·M` of `M` exactly, which is the precise content of
`M ≈ U·diag(s)·Vᴴ`. -/
theorem C1_truncated_svd_properties (m n k p : Nat) (nIt : NIterArg)
    (pn : String) (tr : TransposeArg) (R : Type) [LinearOrderedCommRing R]
    [StarRing R] (M : Matrix (Fin m) (Fin n) R) (K : Kernels R)
    (hm : k + p ≤ m) (hn : k + p ≤ n)
    (hqr : ∀ (r c : Nat), c ≤ r → ∀ X : Matrix (Fin r) (Fin c) R,
      (K.qr X)ᴴ * K.qr X = 1)
    (hsvdF : resolve_transpose m n tr = false →
      SvdSpec (rsvdB M (k + p) (resolve_n_iter m n k nIt) pn K)
        (K.svd (rsvdB M (k + p) (resolve_n_iter m n k nIt) pn K)))
    (hsvdT : resolve_transpose m n tr = true →
      SvdSpec (rsvdB Mᵀ (k + p) (resolve_n_iter m n k nIt) pn K)
        (K.svd (rsvdB Mᵀ (k + p) (resolve_n_iter m n k nIt) pn K))) :
    ((randomizedSvd M k p nIt pn tr K).1ᴴ
        * (randomizedSvd M k p nIt pn tr K).1 = 1)
    ∧ Antitone (randomizedSvd M k p nIt pn tr K).2.1
    ∧ (∀ i, 0 ≤ (randomizedSvd M k p nIt pn tr K).2.1 i)
    ∧ ((randomizedSvd M k p nIt pn tr K).2.2ᴴ
        * (randomizedSvd M k p nIt pn tr K).2.2 = 1)
    ∧ (resolve_transpose m n tr = false →
        rsvdRecon M (k + p) (resolve_n_iter m n k nIt) pn K
          = rsvdProj M (k + p) (resolve_n_iter m n k nIt) pn K)
    ∧ (resolve_transpose m n tr = true →
        rsvdRecon Mᵀ (k + p) (resolve_n_iter m n k nIt) pn K
          = rsvdProj Mᵀ (k + p) (resolve_n_iter m n k nIt) pn K) := by
  cases htr : resolve_transpose m n tr with
  | false =>
      obtain ⟨hU, hV, hA, hpos, hrec⟩ := hsvdF htr
      have hru : randomizedSvd M k p nIt pn tr K =
          (truncCols k (Nat.le_add_right k p)
            (approxRangeFinder M (k + p) (resolve_n_iter m n k nIt) pn K
              * (K.svd (rsvdB M (k + p) (resolve_n_iter m n k nIt) pn K)).1),
           fun i => (K.svd (rsvdB M (k + p)
              (resolve_n_iter m n k nIt) pn K)).2.1
                (Fin.castLE (Nat.le_add_right k p) i),
           (truncRows k (Nat.le_add_right k p)
              (K.svd (rsvdB M (k + p)
                (resolve_n_iter m n k nIt) pn K)).2.2)ᴴ) := by
        simp only [randomizedSvd, htr, Bool.false_eq_true, if_false]
      rw [hru]
      have hQ : (approxRangeFinder M (k + p)
            (resolve_n_iter m n k nIt) pn K)ᴴ
          * approxRangeFinder M (k + p) (resolve_n_iter m n k nIt) pn K
            = 1 := hqr m (k + p) hm _
      refine ⟨?_, ?_, ?_, ?_, fun _ => recon_eq_proj M _ _ pn K hrec, ?_⟩
      · exact lift_trunc_orthonormal (Nat.le_add_right k p) _ _ hQ hU
      · exact antitone_castLE (Nat.le_add_right k p) _ hA
      · exact fun i => hpos _
      · rw [Matrix.conjTranspose_conjTranspose]
        exact truncRows_orthonormal (Nat.le_add_right k p) _ hV
      · intro hcontra
        simp [htr] at hcontra
  | true =>
      obtain ⟨hU, hV, hA, hpos, hrec⟩ := hsvdT htr
      have hru : randomizedSvd M k p nIt pn tr K =
          ((truncRows k (Nat.le_add_right k p)
              (K.svd (rsvdB Mᵀ (k + p)
                (resolve_n_iter m n k nIt) pn K)).2.2)ᵀ,
           fun i => (K.svd (rsvdB Mᵀ (k + p)
              (resolve_n_iter m n k nIt) pn K)).2.1
                (Fin.castLE (Nat.le_add_right k p) i),
           (truncCols k (Nat.le_add_right k p)
              (approxRangeFinder Mᵀ (k + p)
                  (resolve_n_iter m n k nIt) pn K
                * (K.svd (rsvdB Mᵀ (k + p)
                    (resolve_n_iter m n k nIt) pn K)).1)).map star) := by
        simp only [randomizedSvd, htr, if_true]
      rw [hru]
      have hQ : (approxRangeFinder Mᵀ (k + p)
            (resolve_n_iter m n k nIt) pn K)ᴴ
          * approxRangeFinder Mᵀ (k + p) (resolve_n_iter m n k nIt) pn K
            = 1 := hqr n (k + p) hn _
      refine ⟨?_, ?_, ?_, ?_, ?_, fun _ => recon_eq_proj Mᵀ _ _ pn K hrec⟩
      · exact transpose_orthonormal _
          (truncRows_orthonormal (Nat.le_add_right k p) _ hV)
      · exact antitone_castLE (Nat.le_add_right k p) _ hA
      · exact fun i => hpos _
      · exact mapStar_orthonormal _
          (lift_trunc_orthonormal (Nat.le_add_right k p) _ _ hQ hU)
      · intro hcontra
        simp [htr] at hcontra

/-- Concrete instance of `C1_truncated_svd_properties` over `ℤ` with the
`qTriv` kernels at `m = n = 1`, `k = 1`, `p = 0`. -/
theorem C1_truncated_svd_properties_witness :
    (1 + 0 ≤ 1)
    ∧ (((randomizedSvd (1 : Matrix (Fin 1) (Fin 1) ℤ) 1 0 (.num 0) "none"
            (.fixed false) qTriv).1ᴴ
          * (randomizedSvd (1 : Matrix (Fin 1) (Fin 1) ℤ) 1 0 (.num 0)
            "none" (.fixed false) qTriv).1 = 1)
      ∧ Antitone (randomizedSvd (1 : Matrix (Fin 1) (Fin 1) ℤ) 1 0 (.num 0)
          "none" (.fixed false) qTriv).2.1
      ∧ (∀ i, 0 ≤ (randomizedSvd (1 : Matrix (Fin 1) (Fin 1) ℤ) 1 0
          (.num 0) "none" (.fixed false) qTriv).2.1 i)
      ∧ ((randomizedSvd (1 : Matrix (Fin 1) (Fin 1) ℤ) 1 0 (.num 0) "none"
            (.fixed false) qTriv).2.2ᴴ
          * (randomizedSvd (1 : Matrix (Fin 1) (Fin 1) ℤ) 1 0 (.num 0)
            "none" (.fixed false) qTriv).2.2 = 1)
      ∧ (resolve_transpose 1 1 (.fixed false) = false →
          rsvdRecon (1 : Matrix (Fin 1) (Fin 1) ℤ) (1 + 0)
              (resolve_n_iter 1 1 1 (.num 0)) "none" qTriv
            = rsvdProj (1 : Matrix (Fin 1) (Fin 1) ℤ) (1 + 0)
              (resolve_n_iter 1 1 1 (.num 0)) "none" qTriv)
      ∧ (resolve_transpose 1 1 (.fixed false) = true →
          rsvdRecon (1 : Matrix (Fin 1) (Fin 1) ℤ)ᵀ (1 + 0)
              (resolve_n_iter 1 1 1 (.num 0)) "none" qTriv
            = rsvdProj (1 : Matrix (Fin 1) (Fin 1) ℤ)ᵀ (1 + 0)
              (resolve_n_iter 1 1 1 (.num 0)) "none" qTriv)) :=
  ⟨by decide,
   C1_truncated_svd_properties 1 1 1 0 (.num 0) "none" (.fixed false) ℤ 1
     qTriv (by decide) (by decide)
     (fun _ _ hc _ => eyeLike_orthonormal hc)
     (fun _ => ⟨by decide, by decide, by intro _ _ _; exact le_refl _,
       fun _ => zero_le_one, by decide⟩)
     (fun h => absurd h (by decide))⟩

/-- C9 counterexample: both entry points declare the process-wide global
`np.random` module as the implicit default value of their `rgen`
parameter (`extmath.py` lines 6 and 86), so an implicit process-wide
default does exist. -/
theorem C9_default_rgen_cex :
    approx_range_finder_rgen_default.isProcessWideGlobal = true
    ∧ randomized_svd_rgen_default.isProcessWideGlobal = true
    ∧ approx_range_finder_rgen_default = RGenArg.npRandomModule
    ∧ randomized_svd_rgen_default = RGenArg.npRandomModule :=
  ⟨rfl, rfl, rfl, rfl⟩

/-- C9 (amended): the generator is an explicit parameter but defaults to
the global `np.random` module; whenever the external collaborators
(including the generator) behave identically, both entry points produce
identical outputs — the result is a function of the declared inputs
alone, with no hidden state. -/
theorem C9_explicit_rgen_determinism (R : Type) [CommRing R] [StarRing R]
    {m n : Nat} (M : Matrix (Fin m) (Fin n) R) (k p : Nat) (nIt : NIterArg)
    (pn : String) (tr : TransposeArg) (size n_iter : Nat)
    (K K' : Kernels R)
    (hrandn : K.randn = K'.randn)
    (hq : @Kernels.qr R K = @Kernels.qr R K')
    (hl : @Kernels.lu R K = @Kernels.lu R K')
    (hs : @Kernels.svd R K = @Kernels.svd R K') :
    approx_range_finder_rgen_default = RGenArg.npRandomModule
    ∧ randomized_svd_rgen_default = RGenArg.npRandomModule
    ∧ (∀ A : Matrix (Fin m) (Fin n) R,
        approxRangeFinder A size n_iter pn K
          = approxRangeFinder A size n_iter pn K')
    ∧ randomizedSvd M k p nIt pn tr K = randomizedSvd M k p nIt pn tr K' := by
  have hKK : K = K' := by
    cases K
    cases K'
    cases hrandn
    cases hq
    cases hl
    cases hs
    rfl
  subst hKK
  exact ⟨rfl, rfl, fun _ => rfl, rfl⟩

/-- Concrete instance of `C9_explicit_rgen_determinism` with the `qTriv`
kernels on both sides. -/
theorem C9_explicit_rgen_determinism_witness :
    (qTriv.randn = qTriv.randn)
    ∧ (approx_range_finder_rgen_default = RGenArg.npRandomModule
      ∧ randomized_svd_rgen_default = RGenArg.npRandomModule
      ∧ (∀ A : Matrix (Fin 1) (Fin 1) ℤ,
          approxRangeFinder A 1 0 "none" qTriv
            = approxRangeFinder A 1 0 "none" qTriv)
      ∧ randomizedSvd (1 : Matrix (Fin 1) (Fin 1) ℤ) 1 0 (.num 0) "none"
            (.fixed false) qTriv
          = randomizedSvd (1 : Matrix (Fin 1) (Fin 1) ℤ) 1 0 (.num 0)
            "none" (.fixed false) qTriv) :=
  ⟨rfl,
   C9_explicit_rgen_determinism ℤ (1 : Matrix (Fin 1) (Fin 1) ℤ) 1 0
     (.num 0) "none" (.fixed false) 1 0 qTriv qTriv rfl rfl rfl rfl⟩

/-- C10: neither `approx_range_finder` nor `randomized_svd` ever writes
into an existing array: running either store-passing embedding only
appends freshly allocated cells, so every caller-visible cell — in
particular the caller-supplied input matrix — is unchanged after the
call. -/
theorem C10_inputs_never_mutated (iA iM aCols size n_iter m n k p : Nat)
    (nIt : NIterArg) (pn : String) (tr : TransposeArg) (σ : Store) :
    (∃ δ : Store,
      ((approx_range_finder_st iA aCols size n_iter pn).run σ).2 = σ ++ δ)
    ∧ ((approx_range_finder_st iA aCols size n_iter pn).run σ).2.take
        σ.length = σ
    ∧ (∃ δ : Store,
      ((randomized_svd_st iM m n k p nIt pn tr).run σ).2 = σ ++ δ)
    ∧ ((randomized_svd_st iM m n k p nIt pn tr).run σ).2.take
        σ.length = σ := by
  obtain ⟨δ₁, h₁⟩ := stGrows_arf iA aCols size n_iter pn σ
  obtain ⟨δ₂, h₂⟩ := stGrows_rsvd iM m n k p nIt pn tr σ
  refine ⟨⟨δ₁, h₁⟩, ?_, ⟨δ₂, h₂⟩, ?_⟩
  · rw [h₁]
    exact List.take_left σ δ₁
  · rw [h₂]
    exact List.take_left σ δ₂

end Pyscgm
